import Mathlib

/-!
Formal model of the Redis-backed seat reservation engine
(`backend/src/seat/seat.service.ts` together with its controller).

A Redis bitmap value is modelled as a `List Bool` holding the bits of the
stored string in Redis bit order (bit offset 0 first).  `SETBIT` extends the
string to whole bytes exactly as Redis does, `GETBIT` reads `0` past the end
of the string, `BITCOUNT` counts the set bits of the whole string, and
`BITFIELD GET u<n> <i>` reads the `n`-bit big-endian unsigned integer at bit
offset `i` — rejecting the type when `n` is not in `[1, 63]`, since Redis
supports unsigned bitfield widths only up to `u63`.

The key-value store is a total function from key strings to bitmap values;
absent keys are the empty string, matching Redis.
-/

namespace SeatRes

/-- Number of zones (`ZONES` in `seat.service.ts`). -/
def ZONES : Nat := 50

/-- Rows per zone (`ROWS_PER_ZONE`). -/
def ROWS_PER_ZONE : Nat := 20

/-- Seats per row (`SEATS_PER_ROW`). -/
def SEATS_PER_ROW : Nat := 65

/-- Fixed event identifier (`EVENT_ID`). -/
def EVENT_ID : Nat := 1

/-- A Redis bitmap value: the bits of the stored string, in Redis bit order. -/
abbrev Row := List Bool

/-- Zero-extend a bitmap to at least `n` bits (Redis pads with zero bytes). -/
def padTo (l : Row) (n : Nat) : Row :=
  l ++ List.replicate (n - l.length) false

/-- Redis `SETBIT key i v`: grow the string to byte `i / 8` and set bit `i`. -/
def setbit (l : Row) (i : Nat) (v : Bool) : Row :=
  (padTo l ((i / 8 + 1) * 8)).set i v

/-- Redis `GETBIT key i`: bits beyond the current string read as `0`. -/
def getbit (l : Row) (i : Nat) : Bool :=
  l.getD i false

/-- Redis `BITCOUNT key`: number of set bits in the whole string. -/
def bitcount (l : Row) : Nat :=
  l.count true

/-- Redis `STRLEN key`, in bytes. -/
def strlen (l : Row) : Nat :=
  l.length / 8

/-- Value of the `n`-bit big-endian window at bit offset `i` (zero padded). -/
def windowVal (l : Row) (i n : Nat) : Nat :=
  (List.range n).foldl (fun acc j => acc * 2 + (if getbit l (i + j) then 1 else 0)) 0

/-- Redis `BITFIELD key GET u<n> <i>`: unsigned widths are limited to
`1 ≤ n ≤ 63` (`u64` and above are rejected by Redis). -/
def bitfieldGetU (l : Row) (n i : Nat) : Except String Nat :=
  if 1 ≤ n ∧ n ≤ 63 then Except.ok (windowVal l i n)
  else Except.error "ERR Invalid bitfield type"

/-- The coordinate-to-key mapping ``seats:${EVENT_ID}:${zone}:${row}``. -/
def seatKey (zone row : Int) : String :=
  "seats:" ++ toString EVENT_ID ++ ":" ++ toString zone ++ ":" ++ toString row

/-- The Redis keyspace: an association list of key/value pairs, most recent
write first.  Keys that are absent hold the empty string. -/
structure Store where
  entries : List (String × Row)

/-- Value of a key: the most recent write, or the empty string. -/
def lookupKey : List (String × Row) → String → Row
  | [], _ => []
  | e :: es, k => if e.1 = k then e.2 else lookupKey es k

/-- Redis read of a key's value. -/
def Store.get (st : Store) (k : String) : Row :=
  lookupKey st.entries k

/-- Redis write of a key's value. -/
def Store.update (st : Store) (k : String) (l : Row) : Store :=
  ⟨(k, l) :: st.entries⟩

/-- The empty keyspace (no key holds any bits). -/
def emptyStore : Store := ⟨[]⟩

/-- The inner `SETBIT` loop of the reserve script:
`for j = 0, count-1 do redis.call('SETBIT', key, i+j, 1) end`. -/
def setRange : Row → Nat → Nat → Row
  | l, _, 0 => l
  | l, i, k + 1 => setRange (setbit l i true) (i + 1) k

/-- The scan loop of `reserveScript`, with `fuel` iterations left and the
current candidate offset `i`.  Each iteration issues
`BITFIELD key GET u<count> i` and, on an all-zero window, sets the `count`
bits and returns `i`; a failing `BITFIELD` call aborts the script. -/
def scanLoop (l : Row) (count : Nat) : Nat → Nat → Except String (Int × Row)
  | _, 0 => Except.ok (-1, l)
  | i, fuel + 1 =>
    match bitfieldGetU l count i with
    | Except.error e => Except.error e
    | Except.ok v =>
      if v = 0 then Except.ok (Int.ofNat i, setRange l i count)
      else scanLoop l count (i + 1) fuel

/-- Model of `reserveScript`: scan offsets `i = 0 .. seats_per_row - count` (a Lua
`for` loop over an empty range runs zero iterations, so for
`count > SEATS_PER_ROW + 1` nothing is scanned). -/
def runReserveScript (l : Row) (count : Nat) : Except String (Int × Row) :=
  scanLoop l count 0 (SEATS_PER_ROW + 1 - count)

/-- The check loop of `reserveSpecificScript`: `GETBIT` each position in
`[start, start + count)` and report whether all are free. -/
def rangeFree (l : Row) (start count : Nat) : Bool :=
  (List.range count).all (fun i => !(getbit l (start + i)))

/-- Model of `reserveSpecificScript`: all-or-nothing check-then-set of
`[start, start + count)`, returning `-1` when some bit is already set. -/
def runReserveSpecificScript (l : Row) (start count : Nat) : Int × Row :=
  if rangeFree l start count then (Int.ofNat start, setRange l start count)
  else (-1, l)

/-- The ensure-exists preamble shared by both reserve methods: `STRLEN`, and
when the string is shorter than `SEATS_PER_ROW` bits,
`SETBIT key (SEATS_PER_ROW - 1) 0`.  Returns the updated keyspace and the
list of store commands issued. -/
def ensureRowExists (st : Store) (key : String) : Store × List String :=
  if strlen (st.get key) * 8 < SEATS_PER_ROW then
    (Store.update st key (setbit (st.get key) (SEATS_PER_ROW - 1) false),
     ["STRLEN " ++ key, "SETBIT " ++ key])
  else
    (st, ["STRLEN " ++ key])

/-- Outcome of a reserve method: the returned value (or thrown error), the
keyspace afterwards, and the store commands issued, in order. -/
structure ReserveResult where
  result : Except String Int
  store : Store
  accesses : List String

/-- Model of `SeatService.reserveContiguousSeats`: validate the coordinates, ensure
the bitmap exists, then run `reserveScript` under `EVAL`. -/
def reserveContiguousSeats (st : Store) (zone row : Int) (count : Nat) : ReserveResult :=
  if zone < 1 ∨ zone > (ZONES : Int) ∨ row < 1 ∨ row > (ROWS_PER_ZONE : Int) then
    { result := Except.error "Invalid zone or row", store := st, accesses := [] }
  else
    let key := seatKey zone row
    let ens := ensureRowExists st key
    match runReserveScript (ens.1.get key) count with
    | Except.error e =>
      { result := Except.error e, store := ens.1, accesses := ens.2 ++ ["EVAL " ++ key] }
    | Except.ok rl =>
      { result := Except.ok rl.1, store := Store.update ens.1 key rl.2,
        accesses := ens.2 ++ ["EVAL " ++ key] }

/-- Model of `SeatService.reserveSpecificSeats`: validate the coordinates and the
range, ensure the bitmap exists, then run `reserveSpecificScript`. -/
def reserveSpecificSeats (st : Store) (zone row : Int) (start : Int) (count : Nat) :
    ReserveResult :=
  if zone < 1 ∨ zone > (ZONES : Int) ∨ row < 1 ∨ row > (ROWS_PER_ZONE : Int) then
    { result := Except.error "Invalid zone or row", store := st, accesses := [] }
  else if start < 0 ∨ start + (count : Int) > (SEATS_PER_ROW : Int) then
    { result := Except.error "Invalid seat range", store := st, accesses := [] }
  else
    let key := seatKey zone row
    let ens := ensureRowExists st key
    let rl := runReserveSpecificScript (ens.1.get key) start.toNat count
    { result := Except.ok rl.1, store := Store.update ens.1 key rl.2,
      accesses := ens.2 ++ ["EVAL " ++ key] }

/-- Row occupancy record returned by `SeatService.getSeatOccupancy`. -/
structure Occupancy where
  occupied : Nat
  total : Nat
  available : Int
  deriving DecidableEq

/-- Model of `SeatService.getSeatOccupancy`: validate the coordinates, then
`BITCOUNT` the row.  Also returns the store commands issued. -/
def getSeatOccupancy (st : Store) (zone row : Int) :
    Except String Occupancy × List String :=
  if zone < 1 ∨ zone > (ZONES : Int) ∨ row < 1 ∨ row > (ROWS_PER_ZONE : Int) then
    (Except.error "Invalid zone or row", [])
  else
    let key := seatKey zone row
    (Except.ok
      { occupied := bitcount (st.get key), total := SEATS_PER_ROW,
        available := (SEATS_PER_ROW : Int) - (bitcount (st.get key) : Int) },
     ["BITCOUNT " ++ key])

/-- The zone/row pairs visited by the nested loops
`for zone = 1..ZONES, for row = 1..ROWS_PER_ZONE`, in order. -/
def allPairs : List (Int × Int) :=
  (List.range ZONES).flatMap
    (fun z => (List.range ROWS_PER_ZONE).map (fun r => ((z : Int) + 1, (r : Int) + 1)))

/-- Model of `SeatService.initializeAllSeatTables`: one pipelined
`SETBIT key (SEATS_PER_ROW - 1) 0` per zone/row pair. -/
def initializeAllSeatTables (st : Store) : Store :=
  allPairs.foldl
    (fun s zr =>
      Store.update s (seatKey zr.1 zr.2)
        (setbit (s.get (seatKey zr.1 zr.2)) (SEATS_PER_ROW - 1) false))
    st

/-- Aggregate availability record returned by
`SeatService.checkAllSeatsUnavailable`. -/
structure Availability where
  allUnavailable : Bool
  totalSeats : Nat
  occupiedSeats : Nat
  availableSeats : Int
  zonesChecked : Nat
  rowsChecked : Nat
  deriving DecidableEq

/-- Model of `SeatService.checkAllSeatsUnavailable`: pipeline a `BITCOUNT` per
zone/row pair, sum the results, and report the aggregate. -/
def checkAllSeatsUnavailable (st : Store) : Availability :=
  let totalSeats := ZONES * ROWS_PER_ZONE * SEATS_PER_ROW
  let totalOccupied :=
    allPairs.foldl (fun acc zr => acc + bitcount (st.get (seatKey zr.1 zr.2))) 0
  let availableSeats : Int := (totalSeats : Int) - (totalOccupied : Int)
  { allUnavailable := decide (availableSeats = 0)
    totalSeats := totalSeats
    occupiedSeats := totalOccupied
    availableSeats := availableSeats
    zonesChecked := ZONES
    rowsChecked := ZONES * ROWS_PER_ZONE }

/-- A reservation call against one fixed row, as in the conservation
property: either a contiguous request or an exact-position request. -/
inductive RowOp where
  | contig (count : Nat)
  | exact (start : Int) (count : Nat)

/-- Keyspace after one reservation call against row `(zone, row)`. -/
def applyRowOp (st : Store) (zone row : Int) : RowOp → Store
  | RowOp.contig c => (reserveContiguousSeats st zone row c).store
  | RowOp.exact s c => (reserveSpecificSeats st zone row s c).store

/-- The `count` of a call when it returned a success index (a value `≥ 0`),
and `0` otherwise (`-1` or a thrown error). -/
def opSuccessCount (st : Store) (zone row : Int) : RowOp → Nat
  | RowOp.contig c =>
    match (reserveContiguousSeats st zone row c).result with
    | Except.ok res => if 0 ≤ res then c else 0
    | Except.error _ => 0
  | RowOp.exact s c =>
    match (reserveSpecificSeats st zone row s c).result with
    | Except.ok res => if 0 ≤ res then c else 0
    | Except.error _ => 0

/-- Keyspace after a sequence of reservation calls against one row. -/
def runRowOps (st : Store) (zone row : Int) : List RowOp → Store
  | [] => st
  | op :: ops => runRowOps (applyRowOp st zone row op) zone row ops

/-- Sum of the `count` arguments of the calls of a sequence that returned a
success index. -/
def totalSuccess (st : Store) (zone row : Int) : List RowOp → Nat
  | [] => 0
  | op :: ops =>
    opSuccessCount st zone row op + totalSuccess (applyRowOp st zone row op) zone row ops

/-- Any state-mutating operation of the service, for reachability. -/
inductive Op where
  | init
  | contig (zone row : Int) (count : Nat)
  | exact (zone row : Int) (start : Int) (count : Nat)

/-- Keyspace after one operation. -/
def applyOp (st : Store) : Op → Store
  | Op.init => initializeAllSeatTables st
  | Op.contig z r c => (reserveContiguousSeats st z r c).store
  | Op.exact z r s c => (reserveSpecificSeats st z r s c).store

/-- Keyspace after a sequence of operations. -/
def runOps (st : Store) (ops : List Op) : Store :=
  ops.foldl applyOp st

/-- All bits of the window `[i, i + count)` are free. -/
def freeAt (l : Row) (i count : Nat) : Prop :=
  ∀ j < count, getbit l (i + j) = false

instance (l : Row) (i count : Nat) : Decidable (freeAt l i count) :=
  inferInstanceAs (Decidable (∀ j < count, getbit l (i + j) = false))


/-! ### Basic facts about rows and the store -/

theorem Store.get_update_self (st : Store) (k : String) (l : Row) :
    (st.update k l).get k = l := by
  simp [Store.get, Store.update, lookupKey]

theorem Store.get_update_ne (st : Store) (k k' : String) (l : Row) (h : k' ≠ k) :
    (st.update k l).get k' = st.get k' := by
  simp [Store.get, Store.update, lookupKey, Ne.symm h]

theorem length_padTo (l : Row) (n : Nat) : (padTo l n).length = max l.length n := by
  simp [padTo]
  omega

theorem getbit_padTo (l : Row) (n m : Nat) : getbit (padTo l n) m = getbit l m := by
  simp only [getbit, padTo, List.getD_eq_getElem?_getD, List.getElem?_append,
    List.getElem?_replicate]
  by_cases h : m < l.length
  · simp [h]
  · have : l[m]? = none := List.getElem?_eq_none (by omega)
    simp [h, this]
    by_cases h2 : m - l.length < n - l.length <;> simp [h2]

theorem lt_padTo_length (l : Row) (i : Nat) : i < (padTo l ((i / 8 + 1) * 8)).length := by
  rw [length_padTo]
  have := Nat.div_add_mod i 8
  have : i % 8 < 8 := Nat.mod_lt _ (by omega)
  omega

theorem getbit_setbit (l : Row) (i : Nat) (v : Bool) (m : Nat) :
    getbit (setbit l i v) m = if m = i then v else getbit l m := by
  have hi := lt_padTo_length l i
  simp only [setbit, getbit, List.getD_eq_getElem?_getD, List.getElem?_set]
  by_cases h : i = m
  · subst h; simp [hi]
  · simp only [h, if_neg (Ne.symm h), if_neg]
    have := getbit_padTo l ((i / 8 + 1) * 8) m
    simpa [getbit, List.getD_eq_getElem?_getD] using this

theorem length_setbit (l : Row) (i : Nat) (v : Bool) :
    (setbit l i v).length = max l.length ((i / 8 + 1) * 8) := by
  simp [setbit, List.length_set, length_padTo]

theorem dvd_length_setbit (l : Row) (i : Nat) (v : Bool) (h : 8 ∣ l.length) :
    8 ∣ (setbit l i v).length := by
  rw [length_setbit]
  rcases Nat.le_total l.length ((i / 8 + 1) * 8) with hle | hle
  · rw [Nat.max_eq_right hle]; exact ⟨i / 8 + 1, by ring⟩
  · rw [Nat.max_eq_left hle]; exact h

theorem getbit_eq_false_of_le (l : Row) (m : Nat) (h : l.length ≤ m) :
    getbit l m = false := by
  simp only [getbit]
  exact List.getD_eq_default _ _ h

theorem count_true_set_true (l : List Bool) : ∀ i, i < l.length → l.getD i false = false →
    (l.set i true).count true = l.count true + 1 := by
  induction l with
  | nil => simp
  | cons b t ih =>
    intro i hi hb
    cases i with
    | zero =>
      simp only [List.getD_cons_zero] at hb
      subst hb
      simp [List.count_cons]
    | succ n =>
      simp only [List.getD_cons_succ] at hb
      simp only [List.length_cons, Nat.add_lt_add_iff_right] at hi
      simp [List.set, List.count_cons, ih n hi hb]
      omega

theorem count_true_set_false (l : List Bool) : ∀ i, l.getD i false = false →
    (l.set i false).count true = l.count true := by
  induction l with
  | nil => simp
  | cons b t ih =>
    intro i hb
    cases i with
    | zero =>
      simp only [List.getD_cons_zero] at hb
      subst hb
      simp [List.count_cons]
    | succ n =>
      simp only [List.getD_cons_succ] at hb
      simp [List.set, List.count_cons, ih n hb]

theorem bitcount_padTo (l : Row) (n : Nat) : bitcount (padTo l n) = bitcount l := by
  simp [bitcount, padTo, List.count_append, List.count_replicate]

theorem bitcount_setbit_true (l : Row) (i : Nat) (h : getbit l i = false) :
    bitcount (setbit l i true) = bitcount l + 1 := by
  have hi := lt_padTo_length l i
  have hp : (padTo l ((i / 8 + 1) * 8)).getD i false = false := by
    have hpt := getbit_padTo l ((i / 8 + 1) * 8) i
    rw [h] at hpt
    exact hpt
  have hcp := bitcount_padTo l ((i / 8 + 1) * 8)
  simp only [bitcount] at hcp
  unfold setbit bitcount
  rw [count_true_set_true _ i hi hp, hcp]

theorem bitcount_setbit_false (l : Row) (i : Nat) (h : getbit l i = false) :
    bitcount (setbit l i false) = bitcount l := by
  have hp : (padTo l ((i / 8 + 1) * 8)).getD i false = false := by
    have hpt := getbit_padTo l ((i / 8 + 1) * 8) i
    rw [h] at hpt
    exact hpt
  have hcp := bitcount_padTo l ((i / 8 + 1) * 8)
  simp only [bitcount] at hcp
  unfold setbit bitcount
  rw [count_true_set_false _ i hp, hcp]

theorem getbit_setRange (k : Nat) : ∀ (l : Row) (i m : Nat),
    getbit (setRange l i k) m = (getbit l m || decide (i ≤ m ∧ m < i + k)) := by
  induction k with
  | zero =>
    intro l i m
    have : ¬(i ≤ m ∧ m < i + 0) := by omega
    simp [setRange, this]
  | succ n ih =>
    intro l i m
    show getbit (setRange (setbit l i true) (i + 1) n) m = _
    rw [ih, getbit_setbit]
    by_cases h : m = i
    · rw [if_pos h]
      subst h
      have h2 : (m ≤ m ∧ m < m + (n + 1)) := by omega
      simp [h2]
    · rw [if_neg h]
      have heq : (i + 1 ≤ m ∧ m < i + 1 + n) ↔ (i ≤ m ∧ m < i + (n + 1)) := by omega
      simp [heq]

theorem freeAt_zero_bit (l : Row) (i k : Nat) (h : freeAt l i (k + 1)) :
    getbit l i = false := by
  have := h 0 (by omega)
  simpa using this

theorem bitcount_setRange (k : Nat) : ∀ (l : Row) (i : Nat), freeAt l i k →
    bitcount (setRange l i k) = bitcount l + k := by
  induction k with
  | zero => intro l i _; rfl
  | succ n ih =>
    intro l i hfree
    show bitcount (setRange (setbit l i true) (i + 1) n) = _
    have h0 : getbit l i = false := freeAt_zero_bit l i n hfree
    have hfree2 : freeAt (setbit l i true) (i + 1) n := by
      intro j hj
      rw [getbit_setbit]
      have : i + 1 + j ≠ i := by omega
      rw [if_neg this]
      have h4 := hfree (j + 1) (by omega)
      have h3 : i + 1 + j = i + (j + 1) := by omega
      rw [h3]
      exact h4
    rw [ih _ _ hfree2, bitcount_setbit_true l i h0]
    omega

theorem dvd_length_setRange (k : Nat) : ∀ (l : Row) (i : Nat), 8 ∣ l.length →
    8 ∣ (setRange l i k).length := by
  induction k with
  | zero => intro l i h; exact h
  | succ n ih =>
    intro l i h
    exact ih _ _ (dvd_length_setbit l i true h)

theorem windowVal_succ (l : Row) (i n : Nat) :
    windowVal l i (n + 1) = windowVal l i n * 2 + (if getbit l (i + n) then 1 else 0) := by
  unfold windowVal
  rw [List.range_succ, List.foldl_append]
  rfl

theorem windowVal_eq_zero_iff (l : Row) (i n : Nat) :
    windowVal l i n = 0 ↔ ∀ j < n, getbit l (i + j) = false := by
  induction n with
  | zero => simp [windowVal]
  | succ n ih =>
    rw [windowVal_succ, Nat.forall_lt_succ, ← ih]
    cases h : getbit l (i + n) <;> simp [h]

/-! ### The scan loop of the reserve script -/

theorem scanLoop_error (l : Row) (count : Nat) (hc : ¬(1 ≤ count ∧ count ≤ 63)) :
    ∀ (fuel i : Nat), 0 < fuel →
    scanLoop l count i fuel = Except.error "ERR Invalid bitfield type" := by
  intro fuel i hf
  cases fuel with
  | zero => omega
  | succ n =>
    show (match bitfieldGetU l count i with
      | Except.error e => Except.error e
      | Except.ok v =>
        if v = 0 then Except.ok (Int.ofNat i, setRange l i count)
        else scanLoop l count (i + 1) n) = _
    rw [bitfieldGetU, if_neg hc]

theorem scanLoop_not_found (l : Row) (count : Nat) (hc : 1 ≤ count ∧ count ≤ 63) :
    ∀ (fuel i : Nat), (∀ k < fuel, ¬ freeAt l (i + k) count) →
    scanLoop l count i fuel = Except.ok (-1, l) := by
  intro fuel
  induction fuel with
  | zero => intro i _; rfl
  | succ n ih =>
    intro i h
    show (match bitfieldGetU l count i with
      | Except.error e => Except.error e
      | Except.ok v =>
        if v = 0 then Except.ok (Int.ofNat i, setRange l i count)
        else scanLoop l count (i + 1) n) = _
    rw [bitfieldGetU, if_pos hc]
    have hnz : ¬ windowVal l i count = 0 := by
      rw [windowVal_eq_zero_iff]
      have h0 := h 0 (by omega)
      simpa [freeAt] using h0
    simp only [if_neg hnz]
    apply ih
    intro k hk
    have hk1 := h (k + 1) (by omega)
    have h3 : i + 1 + k = i + (k + 1) := by omega
    rw [h3]
    exact hk1

theorem scanLoop_found (l : Row) (count : Nat) (hc : 1 ≤ count ∧ count ≤ 63) :
    ∀ (fuel i k : Nat), k < fuel → freeAt l (i + k) count →
    (∀ j < k, ¬ freeAt l (i + j) count) →
    scanLoop l count i fuel = Except.ok (Int.ofNat (i + k), setRange l (i + k) count) := by
  intro fuel
  induction fuel with
  | zero => intro i k hk; omega
  | succ n ih =>
    intro i k hk hfree hmin
    show (match bitfieldGetU l count i with
      | Except.error e => Except.error e
      | Except.ok v =>
        if v = 0 then Except.ok (Int.ofNat i, setRange l i count)
        else scanLoop l count (i + 1) n) = _
    rw [bitfieldGetU, if_pos hc]
    cases k with
    | zero =>
      have hz : windowVal l i count = 0 := by
        rw [windowVal_eq_zero_iff]
        intro j hj
        have := hfree j hj
        simpa using this
      simp only [if_pos hz]
      simp
    | succ kk =>
      have hnz : ¬ windowVal l i count = 0 := by
        rw [windowVal_eq_zero_iff]
        have h0 := hmin 0 (by omega)
        simpa [freeAt] using h0
      simp only [if_neg hnz]
      have h3 : i + 1 + kk = i + (kk + 1) := by omega
      have hmin2 : ∀ j < kk, ¬ freeAt l (i + 1 + j) count := by
        intro j hj
        have h4 : i + 1 + j = i + (j + 1) := by omega
        rw [h4]
        exact hmin (j + 1) (by omega)
      have := ih (i + 1) kk (by omega) (by rw [h3]; exact hfree) hmin2
      rw [this, h3]

theorem scanLoop_ok_cases (l : Row) (count : Nat) :
    ∀ (fuel i : Nat) (res : Int) (row' : Row),
    scanLoop l count i fuel = Except.ok (res, row') →
    (res = -1 ∧ row' = l) ∨
    ∃ k, k < fuel ∧ res = Int.ofNat (i + k) ∧ freeAt l (i + k) count ∧
      row' = setRange l (i + k) count := by
  intro fuel
  induction fuel with
  | zero =>
    intro i res row' h
    left
    have h1 : Except.ok (res, row') = (Except.ok (-1, l) : Except String (Int × Row)) := h.symm
    simp at h1
    exact ⟨h1.1, h1.2⟩
  | succ n ih =>
    intro i res row' h
    rw [show scanLoop l count i (n + 1) = (match bitfieldGetU l count i with
      | Except.error e => Except.error e
      | Except.ok v =>
        if v = 0 then Except.ok (Int.ofNat i, setRange l i count)
        else scanLoop l count (i + 1) n) from rfl] at h
    rw [bitfieldGetU] at h
    by_cases hc : 1 ≤ count ∧ count ≤ 63
    · rw [if_pos hc] at h
      by_cases hz : windowVal l i count = 0
      · simp only [if_pos hz] at h
        right
        refine ⟨0, by omega, ?_, ?_, ?_⟩
        · simpa using congrArg (fun e => match e with
            | Except.ok p => p.1
            | Except.error _ => (0 : Int)) h.symm
        · rw [windowVal_eq_zero_iff] at hz
          intro j hj
          have := hz j hj
          simpa using this
        · simpa using congrArg (fun e => match e with
            | Except.ok p => p.2
            | Except.error _ => l) h.symm
      · simp only [if_neg hz] at h
        rcases ih (i + 1) res row' h with h1 | ⟨k, hk, hres, hfree, hrow⟩
        · exact Or.inl h1
        · right
          refine ⟨k + 1, by omega, ?_, ?_, ?_⟩
          · rw [hres]; congr 1; omega
          · have h3 : i + (k + 1) = i + 1 + k := by omega
            rw [h3]; exact hfree
          · rw [hrow]; congr 1; omega
    · rw [if_neg hc] at h
      cases h

/-! ### The ensure-exists preamble -/

theorem length_le_64_of_short (l : Row) (h8 : 8 ∣ l.length)
    (hc : strlen l * 8 < SEATS_PER_ROW) : l.length ≤ 64 := by
  have h65 : SEATS_PER_ROW = 65 := rfl
  unfold strlen at hc
  omega

theorem ensure_getbit (st : Store) (key : String) (h8 : 8 ∣ (st.get key).length) (m : Nat) :
    getbit ((ensureRowExists st key).1.get key) m = getbit (st.get key) m := by
  unfold ensureRowExists
  by_cases hc : strlen (st.get key) * 8 < SEATS_PER_ROW
  · rw [if_pos hc]
    show getbit ((Store.update st key (setbit (st.get key) (SEATS_PER_ROW - 1) false)).get key) m = _
    rw [Store.get_update_self, getbit_setbit]
    by_cases hm : m = SEATS_PER_ROW - 1
    · rw [if_pos hm, hm]
      symm
      apply getbit_eq_false_of_le
      have := length_le_64_of_short (st.get key) h8 hc
      have h65 : SEATS_PER_ROW = 65 := rfl
      omega
    · rw [if_neg hm]
  · rw [if_neg hc]

theorem ensure_dvd (st : Store) (key : String) (h8 : 8 ∣ (st.get key).length) :
    8 ∣ ((ensureRowExists st key).1.get key).length := by
  unfold ensureRowExists
  by_cases hc : strlen (st.get key) * 8 < SEATS_PER_ROW
  · rw [if_pos hc]
    show 8 ∣ ((Store.update st key (setbit (st.get key) (SEATS_PER_ROW - 1) false)).get key).length
    rw [Store.get_update_self]
    exact dvd_length_setbit _ _ _ h8
  · rw [if_neg hc]
    exact h8

theorem ensure_bitcount (st : Store) (key : String) (h8 : 8 ∣ (st.get key).length) :
    bitcount ((ensureRowExists st key).1.get key) = bitcount (st.get key) := by
  unfold ensureRowExists
  by_cases hc : strlen (st.get key) * 8 < SEATS_PER_ROW
  · rw [if_pos hc]
    show bitcount ((Store.update st key (setbit (st.get key) (SEATS_PER_ROW - 1) false)).get key) = _
    rw [Store.get_update_self]
    apply bitcount_setbit_false
    apply getbit_eq_false_of_le
    have := length_le_64_of_short (st.get key) h8 hc
    have h65 : SEATS_PER_ROW = 65 := rfl
    omega
  · rw [if_neg hc]

/-! ### Unfolding the service methods at valid coordinates -/

theorem valid_coords_cond (zone row : Int) (hz1 : 1 ≤ zone) (hz2 : zone ≤ 50)
    (hr1 : 1 ≤ row) (hr2 : row ≤ 20) :
    ¬(zone < 1 ∨ zone > (ZONES : Int) ∨ row < 1 ∨ row > (ROWS_PER_ZONE : Int)) := by
  have h1 : (ZONES : Int) = 50 := rfl
  have h2 : (ROWS_PER_ZONE : Int) = 20 := rfl
  omega

theorem reserveContiguous_eq_of_valid (st : Store) (zone row : Int) (count : Nat)
    (hz1 : 1 ≤ zone) (hz2 : zone ≤ 50) (hr1 : 1 ≤ row) (hr2 : row ≤ 20) :
    reserveContiguousSeats st zone row count =
      match runReserveScript ((ensureRowExists st (seatKey zone row)).1.get (seatKey zone row)) count with
      | Except.error e =>
        { result := Except.error e, store := (ensureRowExists st (seatKey zone row)).1,
          accesses := (ensureRowExists st (seatKey zone row)).2 ++ ["EVAL " ++ seatKey zone row] }
      | Except.ok rl =>
        { result := Except.ok rl.1,
          store := Store.update (ensureRowExists st (seatKey zone row)).1 (seatKey zone row) rl.2,
          accesses := (ensureRowExists st (seatKey zone row)).2 ++ ["EVAL " ++ seatKey zone row] } := by
  unfold reserveContiguousSeats
  rw [if_neg (valid_coords_cond zone row hz1 hz2 hr1 hr2)]

theorem valid_range_cond (start : Int) (count : Nat) (hs : 0 ≤ start)
    (hsc : start + (count : Int) ≤ 65) :
    ¬(start < 0 ∨ start + (count : Int) > (SEATS_PER_ROW : Int)) := by
  have h1 : (SEATS_PER_ROW : Int) = 65 := rfl
  omega

theorem reserveSpecific_eq_of_valid (st : Store) (zone row start : Int) (count : Nat)
    (hz1 : 1 ≤ zone) (hz2 : zone ≤ 50) (hr1 : 1 ≤ row) (hr2 : row ≤ 20)
    (hs : 0 ≤ start) (hsc : start + (count : Int) ≤ 65) :
    reserveSpecificSeats st zone row start count =
      { result := Except.ok (runReserveSpecificScript
          ((ensureRowExists st (seatKey zone row)).1.get (seatKey zone row)) start.toNat count).1,
        store := Store.update (ensureRowExists st (seatKey zone row)).1 (seatKey zone row)
          (runReserveSpecificScript
            ((ensureRowExists st (seatKey zone row)).1.get (seatKey zone row)) start.toNat count).2,
        accesses := (ensureRowExists st (seatKey zone row)).2 ++ ["EVAL " ++ seatKey zone row] } := by
  unfold reserveSpecificSeats
  rw [if_neg (valid_coords_cond zone row hz1 hz2 hr1 hr2),
    if_neg (valid_range_cond start count hs hsc)]

theorem getSeatOccupancy_eq_of_valid (st : Store) (zone row : Int)
    (hz1 : 1 ≤ zone) (hz2 : zone ≤ 50) (hr1 : 1 ≤ row) (hr2 : row ≤ 20) :
    getSeatOccupancy st zone row =
      (Except.ok
        { occupied := bitcount (st.get (seatKey zone row)), total := SEATS_PER_ROW,
          available := (SEATS_PER_ROW : Int) - (bitcount (st.get (seatKey zone row)) : Int) },
       ["BITCOUNT " ++ seatKey zone row]) := by
  unfold getSeatOccupancy
  rw [if_neg (valid_coords_cond zone row hz1 hz2 hr1 hr2)]

theorem freeAt_congr (a b : Row) (h : ∀ m, getbit a m = getbit b m) (i c : Nat) :
    freeAt a i c ↔ freeAt b i c := by
  unfold freeAt
  constructor
  · intro hh j hj
    rw [← h]
    exact hh j hj
  · intro hh j hj
    rw [h]
    exact hh j hj

/-- Claim C1 (amended): for valid coordinates and `1 ≤ count ≤ 63`,
`reserveContiguousSeats` is first-fit: if `i₀` is the smallest offset in
`[0, 65 - count]` whose `count`-bit window is all free, the call returns
`i₀` and sets exactly the bits of `[i₀, i₀ + count)`; if no window in range
is free, it returns the sentinel `-1` and changes no bit.  (As stated in the
spec, with `count` up to `S = 65`, the claim fails: `u64`/`u65` are not
valid Redis bitfield types, see the counterexample.) -/
theorem reserveContiguous_firstFit (st : Store) (zone row : Int) (count : Nat)
    (hz1 : 1 ≤ zone) (hz2 : zone ≤ 50) (hr1 : 1 ≤ row) (hr2 : row ≤ 20)
    (hc1 : 1 ≤ count) (hc2 : count ≤ 63)
    (h8 : 8 ∣ (st.get (seatKey zone row)).length) :
    (∀ i₀ : Nat, i₀ + count ≤ 65 → freeAt (st.get (seatKey zone row)) i₀ count →
      (∀ j < i₀, ¬ freeAt (st.get (seatKey zone row)) j count) →
      (reserveContiguousSeats st zone row count).result = Except.ok (Int.ofNat i₀) ∧
      ∀ m, getbit ((reserveContiguousSeats st zone row count).store.get (seatKey zone row)) m
        = (getbit (st.get (seatKey zone row)) m || decide (i₀ ≤ m ∧ m < i₀ + count))) ∧
    ((∀ i₀ : Nat, i₀ + count ≤ 65 → ¬ freeAt (st.get (seatKey zone row)) i₀ count) →
      (reserveContiguousSeats st zone row count).result = Except.ok (-1) ∧
      ∀ m, getbit ((reserveContiguousSeats st zone row count).store.get (seatKey zone row)) m
        = getbit (st.get (seatKey zone row)) m) := by
  have hEq := reserveContiguous_eq_of_valid st zone row count hz1 hz2 hr1 hr2
  have hg : ∀ m,
      getbit ((ensureRowExists st (seatKey zone row)).1.get (seatKey zone row)) m
        = getbit (st.get (seatKey zone row)) m := ensure_getbit st _ h8
  have hfr : ∀ i c,
      freeAt ((ensureRowExists st (seatKey zone row)).1.get (seatKey zone row)) i c
        ↔ freeAt (st.get (seatKey zone row)) i c :=
    fun i c => freeAt_congr _ _ hg i c
  have h65 : SEATS_PER_ROW = 65 := rfl
  constructor
  · intro i₀ hle hfree hmin
    have hk : i₀ < SEATS_PER_ROW + 1 - count := by omega
    have hfree1 : freeAt ((ensureRowExists st (seatKey zone row)).1.get (seatKey zone row))
        (0 + i₀) count := by
      rw [Nat.zero_add]
      exact (hfr _ _).mpr hfree
    have hmin1 : ∀ j < i₀,
        ¬ freeAt ((ensureRowExists st (seatKey zone row)).1.get (seatKey zone row))
          (0 + j) count := by
      intro j hj hgood
      rw [Nat.zero_add] at hgood
      exact hmin j hj ((hfr _ _).mp hgood)
    have hrun : runReserveScript
        ((ensureRowExists st (seatKey zone row)).1.get (seatKey zone row)) count
        = Except.ok (Int.ofNat (0 + i₀),
            setRange ((ensureRowExists st (seatKey zone row)).1.get (seatKey zone row))
              (0 + i₀) count) :=
      scanLoop_found _ count ⟨hc1, hc2⟩ (SEATS_PER_ROW + 1 - count) 0 i₀ hk hfree1 hmin1
    rw [Nat.zero_add] at hrun
    constructor
    · rw [hEq, hrun]
    · intro m
      rw [hEq, hrun]
      show getbit ((Store.update (ensureRowExists st (seatKey zone row)).1 (seatKey zone row)
        (setRange ((ensureRowExists st (seatKey zone row)).1.get (seatKey zone row)) i₀ count)).get
          (seatKey zone row)) m = _
      rw [Store.get_update_self, getbit_setRange, hg]
  · intro hnone
    have hnone1 : ∀ k < SEATS_PER_ROW + 1 - count,
        ¬ freeAt ((ensureRowExists st (seatKey zone row)).1.get (seatKey zone row))
          (0 + k) count := by
      intro k hk hgood
      rw [Nat.zero_add] at hgood
      exact hnone k (by omega) ((hfr _ _).mp hgood)
    have hrun : runReserveScript
        ((ensureRowExists st (seatKey zone row)).1.get (seatKey zone row)) count
        = Except.ok (-1, (ensureRowExists st (seatKey zone row)).1.get (seatKey zone row)) :=
      scanLoop_not_found _ count ⟨hc1, hc2⟩ (SEATS_PER_ROW + 1 - count) 0 hnone1
    constructor
    · rw [hEq, hrun]
    · intro m
      rw [hEq, hrun]
      show getbit ((Store.update (ensureRowExists st (seatKey zone row)).1 (seatKey zone row)
        ((ensureRowExists st (seatKey zone row)).1.get (seatKey zone row))).get
          (seatKey zone row)) m = _
      rw [Store.get_update_self, hg]

/-- Claim C1 witness: on the empty keyspace, the smallest free offset for
`count = 2` in row `(1, 1)` is `0`, and the call returns it. -/
theorem reserveContiguous_firstFit_witness :
    (reserveContiguousSeats emptyStore 1 1 2).result = Except.ok (Int.ofNat 0) :=
  ((reserveContiguous_firstFit emptyStore 1 1 2 (by decide) (by decide) (by decide)
    (by decide) (by decide) (by decide) ⟨0, rfl⟩).1 0 (by decide) (by decide)
    (by decide)).1

/-- Claim C1 counterexample: the claim quantifies over every
`1 ≤ count ≤ S = 65`, but at `count = 64` the Lua script issues
`BITFIELD … GET u64 0`, an invalid Redis bitfield type: the call aborts with
an error even though the all-free window at offset `0` exists (on the empty
row), instead of returning offset `0` and setting the bits. -/
theorem reserveContiguous_u64_aborts :
    (reserveContiguousSeats emptyStore 1 1 64).result
        = Except.error "ERR Invalid bitfield type"
    ∧ freeAt (emptyStore.get (seatKey 1 1)) 0 64 ∧ 0 + 64 ≤ 65 := by
  refine ⟨rfl, by decide, by decide⟩

theorem rangeFree_iff (l : Row) (start count : Nat) :
    rangeFree l start count = true ↔ ∀ j < count, getbit l (start + j) = false := by
  unfold rangeFree
  rw [List.all_eq_true]
  constructor
  · intro h j hj
    have := h j (List.mem_range.mpr hj)
    simpa using this
  · intro h j hj
    have := h j (List.mem_range.mp hj)
    simpa using this

/-- Claim C2: for valid coordinates and a valid range
(`0 ≤ start`, `start + count ≤ S = 65`), `reserveSpecificSeats` is
all-or-nothing: if some bit of `[start, start + count)` is already set it
returns the sentinel `-1` and leaves every bit of the row unchanged;
otherwise it sets exactly the bits of `[start, start + count)` and returns
`start`. -/
theorem reserveSpecific_allOrNothing (st : Store) (zone row start : Int) (count : Nat)
    (hz1 : 1 ≤ zone) (hz2 : zone ≤ 50) (hr1 : 1 ≤ row) (hr2 : row ≤ 20)
    (hs : 0 ≤ start) (hsc : start + (count : Int) ≤ 65)
    (h8 : 8 ∣ (st.get (seatKey zone row)).length) :
    ((∃ j, j < count ∧ getbit (st.get (seatKey zone row)) (start.toNat + j) = true) →
      (reserveSpecificSeats st zone row start count).result = Except.ok (-1) ∧
      ∀ m, getbit ((reserveSpecificSeats st zone row start count).store.get (seatKey zone row)) m
        = getbit (st.get (seatKey zone row)) m) ∧
    ((∀ j < count, getbit (st.get (seatKey zone row)) (start.toNat + j) = false) →
      (reserveSpecificSeats st zone row start count).result = Except.ok start ∧
      ∀ m, getbit ((reserveSpecificSeats st zone row start count).store.get (seatKey zone row)) m
        = (getbit (st.get (seatKey zone row)) m
            || decide (start.toNat ≤ m ∧ m < start.toNat + count))) := by
  have hEq := reserveSpecific_eq_of_valid st zone row start count hz1 hz2 hr1 hr2 hs hsc
  have hg : ∀ m,
      getbit ((ensureRowExists st (seatKey zone row)).1.get (seatKey zone row)) m
        = getbit (st.get (seatKey zone row)) m := ensure_getbit st _ h8
  constructor
  · intro ⟨j, hj, hbit⟩
    have hrf : rangeFree ((ensureRowExists st (seatKey zone row)).1.get (seatKey zone row))
        start.toNat count = false := by
      by_contra h
      have htrue : rangeFree ((ensureRowExists st (seatKey zone row)).1.get (seatKey zone row))
          start.toNat count = true := by
        cases hb : rangeFree ((ensureRowExists st (seatKey zone row)).1.get (seatKey zone row))
            start.toNat count
        · exact absurd hb h
        · rfl
      have := (rangeFree_iff _ _ _).mp htrue j hj
      rw [hg] at this
      rw [this] at hbit
      cases hbit
    have hscript : runReserveSpecificScript
        ((ensureRowExists st (seatKey zone row)).1.get (seatKey zone row)) start.toNat count
        = (-1, (ensureRowExists st (seatKey zone row)).1.get (seatKey zone row)) := by
      unfold runReserveSpecificScript
      rw [hrf]
      simp
    constructor
    · rw [hEq, hscript]
    · intro m
      rw [hEq, hscript]
      show getbit ((Store.update (ensureRowExists st (seatKey zone row)).1 (seatKey zone row)
        ((ensureRowExists st (seatKey zone row)).1.get (seatKey zone row))).get
          (seatKey zone row)) m = _
      rw [Store.get_update_self, hg]
  · intro hfreeAll
    have hrf : rangeFree ((ensureRowExists st (seatKey zone row)).1.get (seatKey zone row))
        start.toNat count = true := by
      rw [rangeFree_iff]
      intro j hj
      rw [hg]
      exact hfreeAll j hj
    have hscript : runReserveSpecificScript
        ((ensureRowExists st (seatKey zone row)).1.get (seatKey zone row)) start.toNat count
        = (Int.ofNat start.toNat,
           setRange ((ensureRowExists st (seatKey zone row)).1.get (seatKey zone row))
             start.toNat count) := by
      unfold runReserveSpecificScript
      rw [hrf]
      simp
    constructor
    · rw [hEq, hscript]
      show Except.ok (Int.ofNat start.toNat) = Except.ok start
      have hsn : Int.ofNat start.toNat = start := by
        rw [Int.ofNat_eq_natCast]
        omega
      rw [hsn]
    · intro m
      rw [hEq, hscript]
      show getbit ((Store.update (ensureRowExists st (seatKey zone row)).1 (seatKey zone row)
        (setRange ((ensureRowExists st (seatKey zone row)).1.get (seatKey zone row))
          start.toNat count)).get (seatKey zone row)) m = _
      rw [Store.get_update_self, getbit_setRange, hg]

/-- Claim C2 witness: on the empty keyspace, reserving the exact range
`[3, 5)` of row `(1, 1)` succeeds and returns `3`. -/
theorem reserveSpecific_allOrNothing_witness :
    (reserveSpecificSeats emptyStore 1 1 3 2).result = Except.ok 3 :=
  ((reserveSpecific_allOrNothing emptyStore 1 1 3 2 (by decide) (by decide) (by decide)
    (by decide) (by decide) (by decide) ⟨0, rfl⟩).2 (by decide)).1

/-- Claim C9: `reserveContiguousSeats` has no upper-bound check on `count`:
for any valid coordinates and any `count > SEATS_PER_ROW` (the Lua loop
bound `seats_per_row - seats_needed` is then negative, so not a single
window is examined) the call returns the sentinel `-1`, raises no
validation error, and leaves every bit of the row unchanged. -/
theorem reserveContiguous_count_overflow (st : Store) (zone row : Int) (count : Nat)
    (hz1 : 1 ≤ zone) (hz2 : zone ≤ 50) (hr1 : 1 ≤ row) (hr2 : row ≤ 20)
    (hc : 65 < count) (h8 : 8 ∣ (st.get (seatKey zone row)).length) :
    (reserveContiguousSeats st zone row count).result = Except.ok (-1) ∧
    ∀ m, getbit ((reserveContiguousSeats st zone row count).store.get (seatKey zone row)) m
      = getbit (st.get (seatKey zone row)) m := by
  have hEq := reserveContiguous_eq_of_valid st zone row count hz1 hz2 hr1 hr2
  have hg : ∀ m,
      getbit ((ensureRowExists st (seatKey zone row)).1.get (seatKey zone row)) m
        = getbit (st.get (seatKey zone row)) m := ensure_getbit st _ h8
  have h65 : SEATS_PER_ROW = 65 := rfl
  have hfuel : SEATS_PER_ROW + 1 - count = 0 := by omega
  have hrun : runReserveScript
      ((ensureRowExists st (seatKey zone row)).1.get (seatKey zone row)) count
      = Except.ok (-1, (ensureRowExists st (seatKey zone row)).1.get (seatKey zone row)) := by
    unfold runReserveScript
    rw [hfuel]
    rfl
  constructor
  · rw [hEq, hrun]
  · intro m
    rw [hEq, hrun]
    show getbit ((Store.update (ensureRowExists st (seatKey zone row)).1 (seatKey zone row)
      ((ensureRowExists st (seatKey zone row)).1.get (seatKey zone row))).get
        (seatKey zone row)) m = _
    rw [Store.get_update_self, hg]

/-- Claim C9 witness: requesting `66 > 65` seats of row `(1, 1)` on the empty
keyspace returns the sentinel `-1` (no validation error), and leaves, for
example, bit `0` unchanged (free). -/
theorem reserveContiguous_count_overflow_witness :
    (reserveContiguousSeats emptyStore 1 1 66).result = Except.ok (-1) ∧
    getbit ((reserveContiguousSeats emptyStore 1 1 66).store.get (seatKey 1 1)) 0
      = getbit (emptyStore.get (seatKey 1 1)) 0 := by
  have h := reserveContiguous_count_overflow emptyStore 1 1 66 (by decide) (by decide)
    (by decide) (by decide) (by decide) ⟨0, rfl⟩
  exact ⟨h.1, h.2 0⟩

/-- Claim C7: all three coordinate-taking operations validate before touching
the store: with `zoneId ∉ [1, 50]` or `rowId ∉ [1, 20]` each fails with the
validation error, returns the keyspace unchanged, and issues no store
command at all (empty access list); `reserveSpecificSeats` likewise fails
with the range error, before any store access, when `start < 0` or
`start + count > 65`. -/
theorem validation_precedes_store (st : Store) (zone row start : Int) (count : Nat) :
    ((zone < 1 ∨ zone > 50 ∨ row < 1 ∨ row > 20) →
      reserveContiguousSeats st zone row count
        = { result := Except.error "Invalid zone or row", store := st, accesses := [] } ∧
      reserveSpecificSeats st zone row start count
        = { result := Except.error "Invalid zone or row", store := st, accesses := [] } ∧
      getSeatOccupancy st zone row = (Except.error "Invalid zone or row", [])) ∧
    (1 ≤ zone → zone ≤ 50 → 1 ≤ row → row ≤ 20 →
      (start < 0 ∨ start + (count : Int) > 65) →
      reserveSpecificSeats st zone row start count
        = { result := Except.error "Invalid seat range", store := st, accesses := [] }) := by
  have h1 : (ZONES : Int) = 50 := rfl
  have h2 : (ROWS_PER_ZONE : Int) = 20 := rfl
  have h3 : (SEATS_PER_ROW : Int) = 65 := rfl
  constructor
  · intro h
    have hcond : zone < 1 ∨ zone > (ZONES : Int) ∨ row < 1 ∨ row > (ROWS_PER_ZONE : Int) := by
      omega
    refine ⟨?_, ?_, ?_⟩
    · unfold reserveContiguousSeats
      rw [if_pos hcond]
    · unfold reserveSpecificSeats
      rw [if_pos hcond]
    · unfold getSeatOccupancy
      rw [if_pos hcond]
  · intro hz1 hz2 hr1 hr2 h
    have hrange : start < 0 ∨ start + (count : Int) > (SEATS_PER_ROW : Int) := by omega
    unfold reserveSpecificSeats
    rw [if_neg (valid_coords_cond zone row hz1 hz2 hr1 hr2), if_pos hrange]

/-- Claim C7 witness: with the out-of-range zone `0`, the contiguous reserve
on the empty keyspace fails with the validation error, leaves the keyspace
unchanged, and issues no store access. -/
theorem validation_precedes_store_witness :
    reserveContiguousSeats emptyStore 0 1 1
      = { result := Except.error "Invalid zone or row", store := emptyStore, accesses := [] } :=
  ((validation_precedes_store emptyStore 0 1 0 1).1 (by decide)).1

set_option maxRecDepth 400000 in
/-- Claim C3: counterexample to idempotent re-initialization, demonstrating
the code bug.  Starting from an initialized inventory, the exact-position
reservation of seat `64` of row `(1, 1)` sets bit `64`; running
`initializeAllSeatTables` again then executes
`SETBIT seats:1:1:1 64 0`, which force-clears that occupied bit — the spec
requires re-initialization never to alter a bit that is `1`. -/
theorem initializeAll_rerun_clears_bit64 :
    getbit (((reserveSpecificSeats (initializeAllSeatTables emptyStore) 1 1 64 1).store).get
      (seatKey 1 1)) 64 = true
    ∧ getbit ((initializeAllSeatTables
        ((reserveSpecificSeats (initializeAllSeatTables emptyStore) 1 1 64 1).store)).get
      (seatKey 1 1)) 64 = false := ⟨rfl, rfl⟩

/-- Keyspace after `initializeAllSeatTables` on an empty Redis instance. -/
def c6Store0 : Store := initializeAllSeatTables emptyStore

/-- First `count = 3` contiguous reservation of row `(1, 1)`. -/
def c6Call1 : ReserveResult := reserveContiguousSeats c6Store0 1 1 3

/-- Second `count = 3` contiguous reservation of row `(1, 1)`. -/
def c6Call2 : ReserveResult := reserveContiguousSeats c6Call1.store 1 1 3

/-- Third `count = 3` contiguous reservation of row `(1, 1)`. -/
def c6Call3 : ReserveResult := reserveContiguousSeats c6Call2.store 1 1 3

/-- Fourth `count = 3` contiguous reservation of row `(1, 1)`. -/
def c6Call4 : ReserveResult := reserveContiguousSeats c6Call3.store 1 1 3

/-- Fifth call: `count = 60` on the same row. -/
def c6Call5 : ReserveResult := reserveContiguousSeats c6Call4.store 1 1 60

set_option maxRecDepth 400000 in
/-- Claim C6: with `S = 65`, four sequential `count = 3` contiguous
reservations on a freshly initialized row return start indices
`0, 3, 6, 9`, and a fifth request for `count = 60` on the same row returns
the no-capacity sentinel `-1`. -/
theorem reserveContiguous_example_sequence :
    c6Call1.result = Except.ok 0 ∧ c6Call2.result = Except.ok 3 ∧
    c6Call3.result = Except.ok 6 ∧ c6Call4.result = Except.ok 9 ∧
    c6Call5.result = Except.ok (-1) := ⟨rfl, rfl, rfl, rfl, rfl⟩

/-- The occupied count reported by a row query (`0` for an error reply). -/
def occOf : Except String Occupancy → Nat
  | Except.ok o => o.occupied
  | Except.error _ => 0

theorem foldl_add_eq_sum {α : Type} (g : α → Nat) (l : List α) :
    ∀ acc : Nat, l.foldl (fun a x => a + g x) acc = acc + (l.map g).sum := by
  induction l with
  | nil => intro acc; simp
  | cons x xs ih =>
    intro acc
    simp only [List.foldl_cons, List.map_cons, List.sum_cons, ih (acc + g x)]
    omega

theorem mem_allPairs_bounds (zr : Int × Int) (h : zr ∈ allPairs) :
    1 ≤ zr.1 ∧ zr.1 ≤ 50 ∧ 1 ≤ zr.2 ∧ zr.2 ≤ 20 := by
  have h1 : ZONES = 50 := rfl
  have h2 : ROWS_PER_ZONE = 20 := rfl
  simp [allPairs, h1, h2] at h
  obtain ⟨z, hz, rv, ⟨rn, hrn, hre⟩, hzr⟩ := h
  subst hre
  subst hzr
  refine ⟨?_, ?_, ?_, ?_⟩ <;> simp <;> omega

set_option maxRecDepth 40000 in
/-- Claim C5: the aggregate query sums the per-row `BITCOUNT` of all
`50 × 20` rows: `occupiedSeats` equals the sum over all valid rows of the
`occupied` field reported by the single-row query, `totalSeats` is
`50 × 20 × 65 = 65000`, `availableSeats = totalSeats - occupiedSeats`,
`zonesChecked = 50` and `rowsChecked = 1000`; and on each valid row the
single-row query reports the row `BITCOUNT` with `total = 65` and
`available = 65 - occupied`. -/
theorem checkAll_aggregates (st : Store) :
    (checkAllSeatsUnavailable st).occupiedSeats
        = (allPairs.map (fun zr => occOf (getSeatOccupancy st zr.1 zr.2).1)).sum
    ∧ (checkAllSeatsUnavailable st).totalSeats = 50 * 20 * 65
    ∧ (checkAllSeatsUnavailable st).availableSeats
        = ((50 * 20 * 65 : Nat) : Int) - ((checkAllSeatsUnavailable st).occupiedSeats : Int)
    ∧ (checkAllSeatsUnavailable st).zonesChecked = 50
    ∧ (checkAllSeatsUnavailable st).rowsChecked = 50 * 20
    ∧ ∀ zr ∈ allPairs, (getSeatOccupancy st zr.1 zr.2).1
        = Except.ok
            { occupied := bitcount (st.get (seatKey zr.1 zr.2)), total := 65,
              available := (65 : Int) - (bitcount (st.get (seatKey zr.1 zr.2)) : Int) } := by
  have hrow : ∀ zr ∈ allPairs, (getSeatOccupancy st zr.1 zr.2).1
      = Except.ok
          { occupied := bitcount (st.get (seatKey zr.1 zr.2)), total := 65,
            available := (65 : Int) - (bitcount (st.get (seatKey zr.1 zr.2)) : Int) } := by
    intro zr hmem
    obtain ⟨h1, h2, h3, h4⟩ := mem_allPairs_bounds zr hmem
    rw [getSeatOccupancy_eq_of_valid st zr.1 zr.2 h1 h2 h3 h4]
    rfl
  refine ⟨?_, rfl, rfl, rfl, rfl, hrow⟩
  show allPairs.foldl (fun acc zr => acc + bitcount (st.get (seatKey zr.1 zr.2))) 0 = _
  rw [foldl_add_eq_sum (fun zr => bitcount (st.get (seatKey zr.1 zr.2))) allPairs 0]
  rw [Nat.zero_add]
  apply congrArg
  apply List.map_congr_left
  intro zr hmem
  rw [hrow zr hmem]
  rfl

set_option maxRecDepth 2000000 in
/-- Claim C5 witness: on the empty keyspace the aggregate reports the sum of
the per-row queries (both `0`), and the row query of `(1, 1)` reports
`occupied = 0`, `total = 65`, `available = 65`. -/
theorem checkAll_aggregates_witness :
    (checkAllSeatsUnavailable emptyStore).occupiedSeats
        = (allPairs.map (fun zr => occOf (getSeatOccupancy emptyStore zr.1 zr.2).1)).sum
    ∧ (getSeatOccupancy emptyStore 1 1).1
        = Except.ok { occupied := 0, total := 65, available := 65 } := by
  have h := checkAll_aggregates emptyStore
  refine ⟨h.1, ?_⟩
  have hm : ((1 : Int), (1 : Int)) ∈ allPairs := by decide
  exact h.2.2.2.2.2 (1, 1) hm

/-! ### Collision-freedom of the coordinate-to-key mapping -/

/-- Decimal value of a digit string (left fold, base 10). -/
def digitsToNat (l : List Char) : Nat :=
  l.foldl (fun n c => n * 10 + (c.toNat - 48)) 0

theorem repr_no_colon : ∀ n < 51, ':' ∉ (Nat.repr n).data := by decide

theorem repr_decode : ∀ n < 51, digitsToNat (Nat.repr n).data = n := by decide

theorem colon_split : ∀ (a c b d : List Char), ':' ∉ a → ':' ∉ c →
    a ++ ':' :: b = c ++ ':' :: d → a = c ∧ b = d := by
  intro a
  induction a with
  | nil =>
    intro c b d _ hc h
    cases c with
    | nil =>
      simp only [List.nil_append, List.cons.injEq] at h
      exact ⟨rfl, h.2⟩
    | cons y ys =>
      simp only [List.nil_append, List.cons_append, List.cons.injEq] at h
      exact absurd (h.1 ▸ List.mem_cons_self y ys) hc
  | cons x xs ih =>
    intro c b d ha hc h
    cases c with
    | nil =>
      simp only [List.cons_append, List.nil_append, List.cons.injEq] at h
      exact absurd (h.1.symm ▸ List.mem_cons_self x xs) ha
    | cons y ys =>
      simp only [List.cons_append, List.cons.injEq] at h
      obtain ⟨hxy, hrest⟩ := h
      have ha2 : ':' ∉ xs := fun hm => ha (List.mem_cons_of_mem _ hm)
      have hc2 : ':' ∉ ys := fun hm => hc (List.mem_cons_of_mem _ hm)
      obtain ⟨h1, h2⟩ := ih ys b d ha2 hc2 hrest
      exact ⟨by rw [hxy, h1], h2⟩

theorem int_toString_eq (z : Int) (h : 0 ≤ z) : toString z = Nat.repr z.toNat := by
  cases z with
  | ofNat m => rfl
  | negSucc m => exact absurd h (by simp)

theorem seatKey_data (z r : Int) (hz : 0 ≤ z) (hr : 0 ≤ r) :
    (seatKey z r).data
      = 's' :: 'e' :: 'a' :: 't' :: 's' :: ':' :: '1' :: ':' ::
        ((Nat.repr z.toNat).data ++ ':' :: (Nat.repr r.toNat).data) := by
  unfold seatKey
  rw [int_toString_eq z hz, int_toString_eq r hr]
  have h3 : (toString EVENT_ID).data = ['1'] := rfl
  simp only [String.data_append, h3]
  simp

theorem seatKey_inj (z1 r1 z2 r2 : Int)
    (hz1a : 1 ≤ z1) (hz1b : z1 ≤ 50) (hr1a : 1 ≤ r1) (hr1b : r1 ≤ 20)
    (hz2a : 1 ≤ z2) (hz2b : z2 ≤ 50) (hr2a : 1 ≤ r2) (hr2b : r2 ≤ 20)
    (h : seatKey z1 r1 = seatKey z2 r2) : z1 = z2 ∧ r1 = r2 := by
  have hd := congrArg String.data h
  rw [seatKey_data z1 r1 (by omega) (by omega),
    seatKey_data z2 r2 (by omega) (by omega)] at hd
  simp only [List.cons.injEq, true_and] at hd
  have hnc1 : ':' ∉ (Nat.repr z1.toNat).data := repr_no_colon z1.toNat (by omega)
  have hnc2 : ':' ∉ (Nat.repr z2.toNat).data := repr_no_colon z2.toNat (by omega)
  obtain ⟨hA, hB⟩ := colon_split _ _ _ _ hnc1 hnc2 hd
  have hz := congrArg digitsToNat hA
  rw [repr_decode z1.toNat (by omega), repr_decode z2.toNat (by omega)] at hz
  have hrr := congrArg digitsToNat hB
  rw [repr_decode r1.toNat (by omega), repr_decode r2.toNat (by omega)] at hrr
  constructor <;> omega

/-- Claim C8: the coordinate-to-key mapping
``seats:${EVENT_ID}:${zone}:${row}`` is a pure function of the coordinates
and is collision-free: two distinct valid coordinate pairs always map to
distinct store keys. -/
theorem seatKey_collision_free (z1 r1 z2 r2 : Int)
    (hz1a : 1 ≤ z1) (hz1b : z1 ≤ 50) (hr1a : 1 ≤ r1) (hr1b : r1 ≤ 20)
    (hz2a : 1 ≤ z2) (hz2b : z2 ≤ 50) (hr2a : 1 ≤ r2) (hr2b : r2 ≤ 20)
    (hne : ¬(z1 = z2 ∧ r1 = r2)) : seatKey z1 r1 ≠ seatKey z2 r2 :=
  fun h => hne (seatKey_inj z1 r1 z2 r2 hz1a hz1b hr1a hr1b hz2a hz2b hr2a hr2b h)

/-- Claim C8 witness: rows `(1, 1)` and `(1, 2)` have distinct keys. -/
theorem seatKey_collision_free_witness : seatKey 1 1 ≠ seatKey 1 2 :=
  seatKey_collision_free 1 1 1 2 (by decide) (by decide) (by decide) (by decide)
    (by decide) (by decide) (by decide) (by decide) (by decide)

/-! ### Case analysis of the reserve methods -/

theorem reserveContiguous_cases (st : Store) (zone row : Int) (count : Nat)
    (hz1 : 1 ≤ zone) (hz2 : zone ≤ 50) (hr1 : 1 ≤ row) (hr2 : row ≤ 20) :
    (∃ e, (reserveContiguousSeats st zone row count).result = Except.error e ∧
      (reserveContiguousSeats st zone row count).store
        = (ensureRowExists st (seatKey zone row)).1) ∨
    ((reserveContiguousSeats st zone row count).result = Except.ok (-1) ∧
      (reserveContiguousSeats st zone row count).store
        = Store.update (ensureRowExists st (seatKey zone row)).1 (seatKey zone row)
            ((ensureRowExists st (seatKey zone row)).1.get (seatKey zone row))) ∨
    (∃ k, k + count ≤ 65 ∧ 1 ≤ count ∧
      freeAt ((ensureRowExists st (seatKey zone row)).1.get (seatKey zone row)) k count ∧
      (reserveContiguousSeats st zone row count).result = Except.ok (Int.ofNat k) ∧
      (reserveContiguousSeats st zone row count).store
        = Store.update (ensureRowExists st (seatKey zone row)).1 (seatKey zone row)
            (setRange ((ensureRowExists st (seatKey zone row)).1.get (seatKey zone row))
              k count)) := by
  have hEq := reserveContiguous_eq_of_valid st zone row count hz1 hz2 hr1 hr2
  have h65 : SEATS_PER_ROW = 65 := rfl
  by_cases hc : 1 ≤ count ∧ count ≤ 63
  · cases hrr : runReserveScript
        ((ensureRowExists st (seatKey zone row)).1.get (seatKey zone row)) count with
    | error e =>
      left
      exact ⟨e, by rw [hEq, hrr], by rw [hEq, hrr]⟩
    | ok p =>
      obtain ⟨res, row2⟩ := p
      unfold runReserveScript at hrr
      rcases scanLoop_ok_cases _ count _ 0 res row2 hrr with ⟨hres, hrow⟩ | ⟨k, hk, hres, hfree, hrow⟩
      · right; left
        subst hres
        subst hrow
        constructor
        · rw [hEq]
          unfold runReserveScript
          rw [hrr]
        · rw [hEq]
          unfold runReserveScript
          rw [hrr]
      · right; right
        rw [Nat.zero_add] at hres hfree hrow
        refine ⟨k, by omega, hc.1, hfree, ?_, ?_⟩
        · rw [hEq]
          unfold runReserveScript
          rw [hrr, hres]
        · rw [hEq]
          unfold runReserveScript
          rw [hrr, hrow]
  · by_cases hbig : SEATS_PER_ROW + 1 - count = 0
    · right; left
      have hrr : runReserveScript
          ((ensureRowExists st (seatKey zone row)).1.get (seatKey zone row)) count
          = Except.ok (-1, (ensureRowExists st (seatKey zone row)).1.get (seatKey zone row)) := by
        unfold runReserveScript
        rw [hbig]
        rfl
      exact ⟨by rw [hEq, hrr], by rw [hEq, hrr]⟩
    · left
      have hrr : runReserveScript
          ((ensureRowExists st (seatKey zone row)).1.get (seatKey zone row)) count
          = Except.error "ERR Invalid bitfield type" :=
        scanLoop_error _ count hc _ 0 (by omega)
      exact ⟨_, by rw [hEq, hrr], by rw [hEq, hrr]⟩

theorem reserveSpecific_cases (st : Store) (zone row start : Int) (count : Nat)
    (hz1 : 1 ≤ zone) (hz2 : zone ≤ 50) (hr1 : 1 ≤ row) (hr2 : row ≤ 20) :
    ((reserveSpecificSeats st zone row start count).result
        = Except.error "Invalid seat range" ∧
      (reserveSpecificSeats st zone row start count).store = st) ∨
    ((reserveSpecificSeats st zone row start count).result = Except.ok (-1) ∧
      (reserveSpecificSeats st zone row start count).store
        = Store.update (ensureRowExists st (seatKey zone row)).1 (seatKey zone row)
            ((ensureRowExists st (seatKey zone row)).1.get (seatKey zone row))) ∨
    (0 ≤ start ∧ start.toNat + count ≤ 65 ∧
      freeAt ((ensureRowExists st (seatKey zone row)).1.get (seatKey zone row))
        start.toNat count ∧
      (reserveSpecificSeats st zone row start count).result
        = Except.ok (Int.ofNat start.toNat) ∧
      (reserveSpecificSeats st zone row start count).store
        = Store.update (ensureRowExists st (seatKey zone row)).1 (seatKey zone row)
            (setRange ((ensureRowExists st (seatKey zone row)).1.get (seatKey zone row))
              start.toNat count)) := by
  by_cases hrange : start < 0 ∨ start + (count : Int) > (SEATS_PER_ROW : Int)
  · left
    have h3 : (SEATS_PER_ROW : Int) = 65 := rfl
    have hout : reserveSpecificSeats st zone row start count
        = { result := Except.error "Invalid seat range", store := st, accesses := [] } := by
      unfold reserveSpecificSeats
      rw [if_neg (valid_coords_cond zone row hz1 hz2 hr1 hr2), if_pos hrange]
    rw [hout]
    exact ⟨rfl, rfl⟩
  · have hs : 0 ≤ start := by omega
    have hsc : start + (count : Int) ≤ 65 := by
      have h3 : (SEATS_PER_ROW : Int) = 65 := rfl
      omega
    have hEq := reserveSpecific_eq_of_valid st zone row start count hz1 hz2 hr1 hr2 hs hsc
    by_cases hfree : rangeFree
        ((ensureRowExists st (seatKey zone row)).1.get (seatKey zone row))
        start.toNat count = true
    · right; right
      have hscript : runReserveSpecificScript
          ((ensureRowExists st (seatKey zone row)).1.get (seatKey zone row))
          start.toNat count
          = (Int.ofNat start.toNat,
             setRange ((ensureRowExists st (seatKey zone row)).1.get (seatKey zone row))
               start.toNat count) := by
        unfold runReserveSpecificScript
        rw [hfree]
        simp
      refine ⟨hs, by omega, ?_, ?_, ?_⟩
      · intro j hj
        exact (rangeFree_iff _ _ _).mp hfree j hj
      · rw [hEq, hscript]
      · rw [hEq, hscript]
    · right; left
      have hfalse : rangeFree
          ((ensureRowExists st (seatKey zone row)).1.get (seatKey zone row))
          start.toNat count = false := by
        cases hb : rangeFree
            ((ensureRowExists st (seatKey zone row)).1.get (seatKey zone row))
            start.toNat count
        · rfl
        · exact absurd hb hfree
      have hscript : runReserveSpecificScript
          ((ensureRowExists st (seatKey zone row)).1.get (seatKey zone row))
          start.toNat count
          = (-1, (ensureRowExists st (seatKey zone row)).1.get (seatKey zone row)) := by
        unfold runReserveSpecificScript
        rw [hfalse]
        simp
      exact ⟨by rw [hEq, hscript], by rw [hEq, hscript]⟩

/-! ### Occupancy accounting per call -/

theorem contig_delta (st : Store) (zone row : Int) (c : Nat)
    (hz1 : 1 ≤ zone) (hz2 : zone ≤ 50) (hr1 : 1 ≤ row) (hr2 : row ≤ 20)
    (h8 : 8 ∣ (st.get (seatKey zone row)).length) :
    bitcount ((reserveContiguousSeats st zone row c).store.get (seatKey zone row))
      = bitcount (st.get (seatKey zone row)) + opSuccessCount st zone row (RowOp.contig c)
    ∧ 8 ∣ ((reserveContiguousSeats st zone row c).store.get (seatKey zone row)).length := by
  rcases reserveContiguous_cases st zone row c hz1 hz2 hr1 hr2 with
    ⟨e, hres, hstore⟩ | ⟨hres, hstore⟩ | ⟨k, hk65, hc1, hfree, hres, hstore⟩
  · constructor
    · simp only [opSuccessCount]
      rw [hres, hstore, ensure_bitcount st _ h8]
      simp
    · rw [hstore]
      exact ensure_dvd st _ h8
  · constructor
    · simp only [opSuccessCount]
      rw [hres, hstore, Store.get_update_self, ensure_bitcount st _ h8]
      norm_num
    · rw [hstore, Store.get_update_self]
      exact ensure_dvd st _ h8
  · constructor
    · simp only [opSuccessCount]
      rw [hres, hstore, Store.get_update_self,
        bitcount_setRange c _ k hfree, ensure_bitcount st _ h8]
      have hpos : (0 : Int) ≤ Int.ofNat k := by
        rw [Int.ofNat_eq_natCast]
        exact Int.natCast_nonneg k
      simp [hpos]
    · rw [hstore, Store.get_update_self]
      exact dvd_length_setRange c _ k (ensure_dvd st _ h8)

theorem exact_delta (st : Store) (zone row strt : Int) (c : Nat)
    (hz1 : 1 ≤ zone) (hz2 : zone ≤ 50) (hr1 : 1 ≤ row) (hr2 : row ≤ 20)
    (h8 : 8 ∣ (st.get (seatKey zone row)).length) :
    bitcount ((reserveSpecificSeats st zone row strt c).store.get (seatKey zone row))
      = bitcount (st.get (seatKey zone row)) + opSuccessCount st zone row (RowOp.exact strt c)
    ∧ 8 ∣ ((reserveSpecificSeats st zone row strt c).store.get (seatKey zone row)).length := by
  rcases reserveSpecific_cases st zone row strt c hz1 hz2 hr1 hr2 with
    ⟨hres, hstore⟩ | ⟨hres, hstore⟩ | ⟨hs, hsc, hfree, hres, hstore⟩
  · constructor
    · simp only [opSuccessCount]
      rw [hres, hstore]
      simp
    · rw [hstore]
      exact h8
  · constructor
    · simp only [opSuccessCount]
      rw [hres, hstore, Store.get_update_self, ensure_bitcount st _ h8]
      norm_num
    · rw [hstore, Store.get_update_self]
      exact ensure_dvd st _ h8
  · constructor
    · simp only [opSuccessCount]
      rw [hres, hstore, Store.get_update_self,
        bitcount_setRange c _ strt.toNat hfree, ensure_bitcount st _ h8]
      have hpos : (0 : Int) ≤ Int.ofNat strt.toNat := by
        rw [Int.ofNat_eq_natCast]
        exact Int.natCast_nonneg _
      simp [hpos]
    · rw [hstore, Store.get_update_self]
      exact dvd_length_setRange c _ strt.toNat (ensure_dvd st _ h8)

theorem rowOp_delta (st : Store) (zone row : Int) (op : RowOp)
    (hz1 : 1 ≤ zone) (hz2 : zone ≤ 50) (hr1 : 1 ≤ row) (hr2 : row ≤ 20)
    (h8 : 8 ∣ (st.get (seatKey zone row)).length) :
    bitcount ((applyRowOp st zone row op).get (seatKey zone row))
      = bitcount (st.get (seatKey zone row)) + opSuccessCount st zone row op
    ∧ 8 ∣ ((applyRowOp st zone row op).get (seatKey zone row)).length := by
  cases op with
  | contig c => exact contig_delta st zone row c hz1 hz2 hr1 hr2 h8
  | exact strt c => exact exact_delta st zone row strt c hz1 hz2 hr1 hr2 h8

theorem runRowOps_bitcount (zone row : Int)
    (hz1 : 1 ≤ zone) (hz2 : zone ≤ 50) (hr1 : 1 ≤ row) (hr2 : row ≤ 20) :
    ∀ (ops : List RowOp) (st : Store), 8 ∣ (st.get (seatKey zone row)).length →
    bitcount ((runRowOps st zone row ops).get (seatKey zone row))
      = bitcount (st.get (seatKey zone row)) + totalSuccess st zone row ops := by
  intro ops
  induction ops with
  | nil => intro st _; simp [runRowOps, totalSuccess]
  | cons op ops ih =>
    intro st h8
    obtain ⟨hdelta, hdvd⟩ := rowOp_delta st zone row op hz1 hz2 hr1 hr2 h8
    show bitcount ((runRowOps (applyRowOp st zone row op) zone row ops).get (seatKey zone row)) = _
    rw [ih (applyRowOp st zone row op) hdvd, hdelta]
    show _ = bitcount (st.get (seatKey zone row))
      + (opSuccessCount st zone row op + totalSuccess (applyRowOp st zone row op) zone row ops)
    omega

/-- Claim C4: occupancy conservation.  Starting from a freshly initialized
(all-zero) row, after any sequence of reservation calls against that row
the number of set bits equals the sum of the `count` arguments of exactly
the calls that returned a success index; and every single call (contiguous
or exact) increases the row occupancy by its `count` when it returns a
success index and by `0` otherwise. -/
theorem occupancy_conservation (st : Store) (zone row : Int) (ops : List RowOp)
    (hz1 : 1 ≤ zone) (hz2 : zone ≤ 50) (hr1 : 1 ≤ row) (hr2 : row ≤ 20)
    (h8 : 8 ∣ (st.get (seatKey zone row)).length)
    (h0 : bitcount (st.get (seatKey zone row)) = 0) :
    bitcount ((runRowOps st zone row ops).get (seatKey zone row))
      = totalSuccess st zone row ops
    ∧ ∀ (st2 : Store) (op : RowOp), 8 ∣ (st2.get (seatKey zone row)).length →
        bitcount ((applyRowOp st2 zone row op).get (seatKey zone row))
          = bitcount (st2.get (seatKey zone row)) + opSuccessCount st2 zone row op := by
  constructor
  · rw [runRowOps_bitcount zone row hz1 hz2 hr1 hr2 ops st h8, h0, Nat.zero_add]
  · intro st2 op h8b
    exact (rowOp_delta st2 zone row op hz1 hz2 hr1 hr2 h8b).1

/-- Claim C4 witness: on a freshly created row of the empty keyspace, the
sequence "reserve 3 contiguous, reserve exact `[10, 12)`, reserve 3
contiguous again" leaves `3 + 2 + 3 = 8` occupied seats, each successful
call contributing exactly its `count`. -/
theorem occupancy_conservation_witness :
    bitcount ((runRowOps emptyStore 1 1
        [RowOp.contig 3, RowOp.exact 10 2, RowOp.contig 3]).get (seatKey 1 1))
      = totalSuccess emptyStore 1 1 [RowOp.contig 3, RowOp.exact 10 2, RowOp.contig 3] :=
  (occupancy_conservation emptyStore 1 1 [RowOp.contig 3, RowOp.exact 10 2, RowOp.contig 3]
    (by decide) (by decide) (by decide) (by decide) ⟨0, rfl⟩ rfl).1

/-! ### No reachable state holds a bit at index 65 or above -/

/-- Every row of the keyspace has all bits at offsets `≥ 65` clear. -/
def highFree (st : Store) : Prop :=
  ∀ (k : String) (m : Nat), 65 ≤ m → getbit (st.get k) m = false

theorem highFree_empty : highFree emptyStore := by
  intro k m _
  rfl

theorem highFree_update (st : Store) (k : String) (l : Row) (h : highFree st)
    (hl : ∀ m, 65 ≤ m → getbit l m = false) : highFree (st.update k l) := by
  intro k2 m hm
  by_cases hk : k2 = k
  · subst hk
    rw [Store.get_update_self]
    exact hl m hm
  · rw [Store.get_update_ne st k k2 l hk]
    exact h k2 m hm

theorem setbit64_high (l : Row) (m : Nat) (hm : 65 ≤ m) :
    getbit (setbit l (SEATS_PER_ROW - 1) false) m = getbit l m := by
  rw [getbit_setbit]
  have hne : m ≠ SEATS_PER_ROW - 1 := by
    have h65 : SEATS_PER_ROW = 65 := rfl
    omega
  rw [if_neg hne]

theorem highFree_ensure (st : Store) (key : String) (h : highFree st) :
    highFree (ensureRowExists st key).1 := by
  unfold ensureRowExists
  by_cases hc : strlen (st.get key) * 8 < SEATS_PER_ROW
  · rw [if_pos hc]
    apply highFree_update _ _ _ h
    intro m hm
    rw [setbit64_high _ _ hm]
    exact h key m hm
  · rw [if_neg hc]
    exact h

theorem setRange_high (l : Row) (i c : Nat) (hb : i + c ≤ 65)
    (hl : ∀ m, 65 ≤ m → getbit l m = false) :
    ∀ m, 65 ≤ m → getbit (setRange l i c) m = false := by
  intro m hm
  rw [getbit_setRange, hl m hm]
  have : ¬(i ≤ m ∧ m < i + c) := by omega
  simp [this]

theorem reserveContiguous_invalid_eq (st : Store) (zone row : Int) (count : Nat)
    (hcond : zone < 1 ∨ zone > (ZONES : Int) ∨ row < 1 ∨ row > (ROWS_PER_ZONE : Int)) :
    reserveContiguousSeats st zone row count
      = { result := Except.error "Invalid zone or row", store := st, accesses := [] } := by
  unfold reserveContiguousSeats
  rw [if_pos hcond]

theorem reserveSpecific_invalid_eq (st : Store) (zone row start : Int) (count : Nat)
    (hcond : zone < 1 ∨ zone > (ZONES : Int) ∨ row < 1 ∨ row > (ROWS_PER_ZONE : Int)) :
    reserveSpecificSeats st zone row start count
      = { result := Except.error "Invalid zone or row", store := st, accesses := [] } := by
  unfold reserveSpecificSeats
  rw [if_pos hcond]

theorem highFree_contig (st : Store) (z r : Int) (c : Nat) (h : highFree st) :
    highFree (reserveContiguousSeats st z r c).store := by
  by_cases hcond : z < 1 ∨ z > (ZONES : Int) ∨ r < 1 ∨ r > (ROWS_PER_ZONE : Int)
  · rw [reserveContiguous_invalid_eq st z r c hcond]
    exact h
  · have h1 : (ZONES : Int) = 50 := rfl
    have h2 : (ROWS_PER_ZONE : Int) = 20 := rfl
    have hz1 : 1 ≤ z := by omega
    have hz2 : z ≤ 50 := by omega
    have hr1 : 1 ≤ r := by omega
    have hr2 : r ≤ 20 := by omega
    have hens := highFree_ensure st (seatKey z r) h
    rcases reserveContiguous_cases st z r c hz1 hz2 hr1 hr2 with
      ⟨e, _, hstore⟩ | ⟨_, hstore⟩ | ⟨k, hk65, _, _, _, hstore⟩
    · rw [hstore]
      exact hens
    · rw [hstore]
      apply highFree_update _ _ _ hens
      intro m hm
      exact hens _ m hm
    · rw [hstore]
      apply highFree_update _ _ _ hens
      exact setRange_high _ k c hk65 (fun m hm => hens _ m hm)

theorem highFree_exact (st : Store) (z r strt : Int) (c : Nat) (h : highFree st) :
    highFree (reserveSpecificSeats st z r strt c).store := by
  by_cases hcond : z < 1 ∨ z > (ZONES : Int) ∨ r < 1 ∨ r > (ROWS_PER_ZONE : Int)
  · rw [reserveSpecific_invalid_eq st z r strt c hcond]
    exact h
  · have h1 : (ZONES : Int) = 50 := rfl
    have h2 : (ROWS_PER_ZONE : Int) = 20 := rfl
    have hz1 : 1 ≤ z := by omega
    have hz2 : z ≤ 50 := by omega
    have hr1 : 1 ≤ r := by omega
    have hr2 : r ≤ 20 := by omega
    have hens := highFree_ensure st (seatKey z r) h
    rcases reserveSpecific_cases st z r strt c hz1 hz2 hr1 hr2 with
      ⟨_, hstore⟩ | ⟨_, hstore⟩ | ⟨_, hsc, _, _, hstore⟩
    · rw [hstore]
      exact h
    · rw [hstore]
      apply highFree_update _ _ _ hens
      intro m hm
      exact hens _ m hm
    · rw [hstore]
      apply highFree_update _ _ _ hens
      exact setRange_high _ strt.toNat c hsc (fun m hm => hens _ m hm)

theorem highFree_init_foldl : ∀ (l : List (Int × Int)) (st : Store), highFree st →
    highFree (l.foldl
      (fun s zr =>
        Store.update s (seatKey zr.1 zr.2)
          (setbit (s.get (seatKey zr.1 zr.2)) (SEATS_PER_ROW - 1) false))
      st) := by
  intro l
  induction l with
  | nil => intro st h; exact h
  | cons zr rest ih =>
    intro st h
    apply ih
    apply highFree_update _ _ _ h
    intro m hm
    rw [setbit64_high _ _ hm]
    exact h _ m hm

theorem highFree_init (st : Store) (h : highFree st) :
    highFree (initializeAllSeatTables st) :=
  highFree_init_foldl allPairs st h

theorem highFree_runOps : ∀ (ops : List Op) (st : Store), highFree st →
    highFree (runOps st ops) := by
  intro ops
  induction ops with
  | nil => intro st h; exact h
  | cons op rest ih =>
    intro st h
    show highFree (runOps (applyOp st op) rest)
    apply ih
    cases op with
    | init => exact highFree_init st h
    | contig z r c => exact highFree_contig st z r c h
    | exact z r strt c => exact highFree_exact st z r strt c h

theorem bitcount_le_of_highFree (l : Row) (h : ∀ m, 65 ≤ m → getbit l m = false) :
    bitcount l ≤ 65 := by
  have hsplit : bitcount l = (l.take 65).count true + (l.drop 65).count true := by
    unfold bitcount
    conv_lhs => rw [← List.take_append_drop 65 l]
    rw [List.count_append]
  have hdrop : (l.drop 65).count true = 0 := by
    rw [List.count_eq_zero]
    intro hmem
    rw [List.mem_iff_getElem] at hmem
    obtain ⟨i, hi, hvi⟩ := hmem
    have hld := List.length_drop 65 l
    have hlen : 65 + i < l.length := by omega
    have hgd : getbit l (65 + i) = true := by
      unfold getbit
      rw [List.getD_eq_getElem l false hlen]
      rw [← List.getElem_drop]
      exact hvi
    rw [h (65 + i) (by omega)] at hgd
    cases hgd
  have htake : (l.take 65).count true ≤ 65 := by
    have hc := List.count_le_length true (l.take 65)
    have hlt := List.length_take 65 l
    omega
  omega

/-- Claim C10: in every state reachable from the empty keyspace by
initialization and reservation calls, no bit at offset `≥ 65` is ever set,
every row holds between `0` and `65` set bits, and the row occupancy query
on any valid row reports `occupied ∈ [0, 65]`, `total = 65` and
`available = 65 - occupied ≥ 0`. -/
theorem reachable_bits_bounded (ops : List Op) :
    (∀ (k : String) (m : Nat), 65 ≤ m → getbit ((runOps emptyStore ops).get k) m = false)
    ∧ (∀ k : String, bitcount ((runOps emptyStore ops).get k) ≤ 65)
    ∧ ∀ zone row : Int, 1 ≤ zone → zone ≤ 50 → 1 ≤ row → row ≤ 20 →
        (getSeatOccupancy (runOps emptyStore ops) zone row).1
          = Except.ok
              { occupied := bitcount ((runOps emptyStore ops).get (seatKey zone row)),
                total := 65,
                available := (65 : Int)
                  - (bitcount ((runOps emptyStore ops).get (seatKey zone row)) : Int) }
          ∧ bitcount ((runOps emptyStore ops).get (seatKey zone row)) ≤ 65
          ∧ (0 : Int) ≤ (65 : Int)
              - (bitcount ((runOps emptyStore ops).get (seatKey zone row)) : Int) := by
  have hhf : highFree (runOps emptyStore ops) := highFree_runOps ops emptyStore highFree_empty
  have hbc : ∀ k : String, bitcount ((runOps emptyStore ops).get k) ≤ 65 :=
    fun k => bitcount_le_of_highFree _ (fun m hm => hhf k m hm)
  refine ⟨hhf, hbc, ?_⟩
  intro zone row hz1 hz2 hr1 hr2
  refine ⟨?_, hbc _, ?_⟩
  · rw [getSeatOccupancy_eq_of_valid _ zone row hz1 hz2 hr1 hr2]
    rfl
  · have := hbc (seatKey zone row)
    omega

/-- Claim C10 witness: after a single initialization, bit `70` of row
`(1, 1)` is clear and the row occupancy query reports
`occupied = 0 ≤ 65`, `total = 65`, `available = 65 ≥ 0`. -/
theorem reachable_bits_bounded_witness :
    getbit ((runOps emptyStore [Op.init]).get (seatKey 1 1)) 70 = false
    ∧ bitcount ((runOps emptyStore [Op.init]).get (seatKey 1 1)) ≤ 65 := by
  have h := reachable_bits_bounded [Op.init]
  exact ⟨h.1 (seatKey 1 1) 70 (by omega), h.2.1 (seatKey 1 1)⟩

end SeatRes
